import Mathlib

/-!
# OSVR Firmata plugin: `je_nourish_firmata.cpp`

A shallow embedding of the plugin's single source file.

* `thread_data`, `thread_function`: the shared record and the worker that owns the
  serial transport and the Firmata decoder.
* `FirmataDevice`: constructor, `isValid`, `update`, destructor.
* `HardwareDetection`: the hardware detection callback (`operator()`).

The serial layer and the Firmata library are external.  Whatever they decide (does a
call raise, what does `parse()` do to the decoder, which value of `end` does the
worker read) is supplied by an `Env`.  Every thread records what it does as a list of
`Event`s, in program order.

Mutex model.  `std::mutex` has no recovery when its owner dies: a mutex that is still
locked when its owning thread returns stays locked.  The record handed to a main
thread operation is the record as the worker leaves it when it yields between two
critical sections (mutex free) or when it has returned (mutex free, or owned by the
worker for good).  A main thread `lock()` on a record whose mutex is owned by the
worker is therefore never granted, and the operation does not return: `none`.
-/

namespace Firmata

/-! ## Data model -/

/-- The two exception classes caught by `thread_function`. -/
inductive Exn where
  | IOException
  | NotOpenException
  deriving DecidableEq, Repr

/-- Threads of control of one device. -/
inductive Thread where
  | main
  | worker
  deriving DecidableEq, Repr

/-- Return codes of the plugin kit. -/
inductive OSVR_ReturnCode where
  | OSVR_RETURN_SUCCESS
  | OSVR_RETURN_FAILURE
  deriving DecidableEq, Repr

/-- The fields and readers of `firmata::Base` that the plugin uses. -/
structure Decoder where
  name : String
  major_version : Int
  minor_version : Int
  ready : Bool
  analogRead : String → Nat
  digitalRead : Nat → Nat

/-- The record `thread_data`.  `mutex` holds the owner of the `std::mutex` (`none` when
it is free); `firmata = none` is the `NULL` pointer. -/
structure thread_data where
  mutex : Option Thread
  end_ : Bool
  firmata : Option Decoder
  port : String

/-- The constructor `thread_data(std::string p)`. -/
def thread_data.init (p : String) : thread_data :=
  { mutex := none, end_ := false, firmata := none, port := p }

/-- Configuration commands sent to the decoder. -/
inductive Command where
  | reportAnalog (channel : Nat) (enable : Nat)
  | pinMode (pin : Nat) (mode : Nat)
  | reportDigital (port : Nat) (enable : Nat)
  deriving DecidableEq, Repr

/-- What a thread does, in program order. -/
inductive Event where
  | lock
  | unlock
  | openSerial (port : String)
  | newFirmata
  | command (c : Command)
  | readEnd (value : Bool)
  | writeEnd (value : Bool)
  | parse
  | deleteFirmata
  | log (e : Exn)
  | readFirmata
  | readReady
  | readName
  | readMajor
  | readMinor
  | analogRead (channel : String)
  | digitalRead (pin : Nat)
  | analogSetValues (values : List Nat)
  | buttonSetValues (values : List Nat)
  | join
  deriving DecidableEq, Repr

/-- The linked Firmata library and the hardware behind one port, during one run of the
worker.  `MODE_INPUT` is the library's constant; `endAt k` is the value of `data.end`
that the worker reads at its `k`-th loop iteration (the flag is written by the main
thread). -/
structure Env where
  MODE_INPUT : Nat
  openSerial : String → Option Exn
  newFirmata : Except Exn Decoder
  command : Command → Decoder → Except Exn Decoder
  endAt : Nat → Bool
  parse : Nat → Decoder → Except Exn Decoder

/-! ## The worker: `thread_function` -/

/-- The worker's `data.mutex.lock()`.  The main thread's critical sections are finite, so
the worker's request is granted. -/
def workerLock (d : thread_data) : thread_data :=
  { d with mutex := some Thread.worker }

/-- The worker's `data.mutex.unlock()`. -/
def workerUnlock (d : thread_data) : thread_data :=
  { d with mutex := none }

/-- How control leaves a block of the worker: the window of observation closed while the
loop was still iterating, the block ran to its end, or a call raised. -/
inductive Exit where
  | running
  | normal
  | raised (e : Exn)
  deriving DecidableEq, Repr

/-- A block of the worker once run: how it was left, the shared record it leaves, and the
events it performed, in order. -/
structure Flow where
  exit : Exit
  data : thread_data
  events : List Event

/-- Events that happened before a block are put in front of its own. -/
def Flow.after (pre : List Event) (r : Flow) : Flow :=
  { r with events := pre ++ r.events }

/-- The commands of lines 46 to 53, in program order. -/
def configCommands (MODE_INPUT : Nat) : List Command :=
  (List.range 6).map (fun i => Command.reportAnalog i 1)
    ++ (List.range 14).map (fun i => Command.pinMode i MODE_INPUT)
    ++ [Command.reportDigital 0 1, Command.reportDigital 1 1]

/-- Send commands through `data.firmata` one after the other; a raising command ends the
block.  The second component is the decoder behind `data.firmata` afterwards. -/
def sendAll (env : Env) : List Command → Decoder → thread_data → Flow × Decoder
  | [], f, d => ({ exit := Exit.normal, data := d, events := [] }, f)
  | c :: cs, f, d =>
    match env.command c f with
    | Except.error e => ({ exit := Exit.raised e, data := d, events := [Event.command c] }, f)
    | Except.ok f1 =>
      let r := sendAll env cs f1 { d with firmata := some f1 }
      (r.1.after [Event.command c], r.2)

/-- The `do ... while (1)` of lines 57 to 62.  `fuel` bounds the iterations looked at; when
it runs out the worker is at the head of the loop, still running.  `k` counts
iterations, `f` is the decoder behind `data.firmata`.  At `break` the mutex is still
held: line 64 releases it. -/
def runLoop (env : Env) : Nat → Nat → Decoder → thread_data → Flow
  | 0, _, _, d => { exit := Exit.running, data := d, events := [] }
  | fuel + 1, k, f, d =>
    let d1 := { workerLock d with end_ := env.endAt k }
    if env.endAt k then
      { exit := Exit.normal, data := d1, events := [Event.lock, Event.readEnd true] }
    else
      match env.parse k f with
      | Except.error e =>
        { exit := Exit.raised e, data := d1,
          events := [Event.lock, Event.readEnd false, Event.parse] }
      | Except.ok f1 =>
        (runLoop env fuel (k + 1) f1 (workerUnlock { d1 with firmata := some f1 })).after
          [Event.lock, Event.readEnd false, Event.parse, Event.unlock]

/-- The `try` block of `thread_function`, lines 41 to 65. -/
def tryBlock (env : Env) (fuel : Nat) (d : thread_data) : Flow :=
  let d1 := workerLock d
  match env.openSerial d1.port with
  | some e =>
    { exit := Exit.raised e, data := d1, events := [Event.lock, Event.openSerial d1.port] }
  | none =>
    match env.newFirmata with
    | Except.error e =>
      { exit := Exit.raised e, data := d1,
        events := [Event.lock, Event.openSerial d1.port, Event.newFirmata] }
    | Except.ok f0 =>
      let pre := [Event.lock, Event.openSerial d1.port, Event.newFirmata]
      let cfg := sendAll env (configCommands env.MODE_INPUT) f0 { d1 with firmata := some f0 }
      match cfg.1.exit with
      | Exit.normal =>
        let loop := runLoop env fuel 0 cfg.2 (workerUnlock cfg.1.data)
        match loop.exit with
        | Exit.normal =>
          { exit := Exit.normal, data := workerUnlock loop.data,
            events := pre ++ cfg.1.events ++ [Event.unlock] ++ loop.events
                        ++ [Event.unlock, Event.deleteFirmata] }
        | _ => loop.after (pre ++ cfg.1.events ++ [Event.unlock])
      | _ => cfg.1.after pre

/-- Whether the worker has returned from `thread_function`. -/
inductive Status where
  | running
  | returned
  deriving DecidableEq, Repr

/-- The worker as seen from outside: the shared record as it leaves it, what it did, and
whether it has returned. -/
structure Worker where
  data : thread_data
  trace : List Event
  status : Status

/-- The function `thread_function(thread_data& data)`: the `try` block and the two
handlers, which both print `e.what()` and fall through to the end of the function. -/
def thread_function (env : Env) (fuel : Nat) (data : thread_data) : Worker :=
  let r := tryBlock env fuel data
  match r.exit with
  | Exit.running => { data := r.data, trace := r.events, status := Status.running }
  | Exit.normal => { data := r.data, trace := r.events, status := Status.returned }
  | Exit.raised e =>
    { data := r.data, trace := r.events ++ [Event.log e], status := Status.returned }

/-! ## The device: `FirmataDevice` -/

/-- The three-way comparison behind `std::string::compare`: the sign of the first
difference, else of the difference in length. -/
def compareChars : List Char → List Char → Int
  | [], [] => 0
  | [], _ :: _ => -1
  | _ :: _, [] => 1
  | a :: as, b :: bs =>
    if a.toNat < b.toNat then -1
    else if b.toNat < a.toNat then 1
    else compareChars as bs

/-- The call `a.compare(b)` on `std::string`. -/
def std_string_compare (a b : String) : Int :=
  compareChars a.data b.data

/-- The default of the constructor's parameter `firmwareName`. -/
def defaultFirmwareName : String := "StandardFirmata.ino"

/-- What the plugin kit holds for `m_dev` once `initAsync` and the two calls after it
have run. -/
structure DeviceToken where
  name : String
  analogChannels : Nat
  buttons : Nat
  jsonDescriptorSent : Bool
  updateCallbackRegistered : Bool
  deriving DecidableEq, Repr

/-- The members of `FirmataDevice`.  `m_dev = none`: the token was never initialised, no
device is registered with the host. -/
structure FirmataDevice where
  m_dev : Option DeviceToken
  m_thread_data : thread_data
  m_valid : Bool

/-- A main thread `mutex.lock()`: granted on a free mutex, never granted on one the worker
owns (see the header). -/
def mainLock (d : thread_data) : Option thread_data :=
  match d.mutex with
  | none => some { d with mutex := some Thread.main }
  | some _ => none

/-- A main thread `mutex.unlock()`. -/
def mainUnlock (d : thread_data) : thread_data :=
  { d with mutex := none }

/-- The right-hand side of line 85:
`firmata != NULL && firmata->ready() && firmata->name.compare(firmwareName) == 0`. -/
def validExpr (d : thread_data) (firmwareName : String) : Bool :=
  match d.firmata with
  | none => false
  | some f => f.ready && (std_string_compare f.name firmwareName == 0)

/-- The reads line 85 performs, with the short circuit of `&&`. -/
def validReads (d : thread_data) : List Event :=
  match d.firmata with
  | none => [Event.readFirmata]
  | some f =>
    if f.ready then [Event.readFirmata, Event.readReady, Event.readName]
    else [Event.readFirmata, Event.readReady]

/-- The string `deviceName` of lines 89 to 91. -/
def deviceName (f : Decoder) : String :=
  f.name ++ "-" ++ toString f.major_version ++ "." ++ toString f.minor_version

/-- Lines 84 to 109 of the constructor, on the record `d` as the worker has left it when
the sleep is over. -/
def FirmataDevice.inspect (d : thread_data) (firmwareName : String) :
    Option (FirmataDevice × List Event) :=
  match mainLock d with
  | none => none
  | some d1 =>
    let m_valid := validExpr d1 firmwareName
    let d2 := mainUnlock d1
    if m_valid then
      some ({ m_dev := d2.firmata.map (fun f =>
                { name := deviceName f, analogChannels := 6, buttons := 14,
                  jsonDescriptorSent := true, updateCallbackRegistered := true }),
              m_thread_data := d2, m_valid := m_valid },
            [Event.lock] ++ validReads d1 ++ [Event.unlock]
              ++ [Event.readFirmata, Event.readName, Event.readMajor, Event.readMinor])
    else
      some ({ m_dev := none, m_thread_data := d2, m_valid := m_valid },
            [Event.lock] ++ validReads d1 ++ [Event.unlock])

/-- The constructor `FirmataDevice(ctx, port, firmwareName)`: start the worker on a fresh
record, sleep, inspect.  The worker locks the mutex as its first action and keeps it
until the configuration is sent, so by the end of the sleep of 3000 ms it has either
returned or reached its loop (a constructor that finds the mutex taken waits for it);
`grace` is the number of loop iterations it has completed by then.  Nothing writes
`end` before the destructor, so the worker reads `false`. -/
def FirmataDevice.new (env : Env) (grace : Nat) (port firmwareName : String) :
    Option (FirmataDevice × List Event) :=
  FirmataDevice.inspect
    (thread_function { env with endAt := fun _ => false } grace (thread_data.init port)).data
    firmwareName

/-- The method `isValid()`. -/
def FirmataDevice.isValid (dev : FirmataDevice) : Bool :=
  dev.m_valid

/-- The six channel names read by `update()`, in the order of the initialiser. -/
def analogChannelNames : List String := ["A0", "A1", "A2", "A3", "A4", "A5"]

/-- The fourteen pins read by `update()`, in the order of the initialiser. -/
def digitalPins : List Nat := [0, 1, 2, 3, 4, 5, 6, 7, 8, 9, 10, 11, 12, 13]

/-- Lines 129 to 159 of `update()`: what is read and what is handed to the host. -/
def updateBody (d : thread_data) : List Event :=
  match d.firmata with
  | none => [Event.readFirmata]
  | some f =>
    if f.ready then
      [Event.readFirmata, Event.readReady]
        ++ analogChannelNames.map Event.analogRead
        ++ [Event.analogSetValues (analogChannelNames.map f.analogRead)]
        ++ digitalPins.map Event.digitalRead
        ++ [Event.buttonSetValues (digitalPins.map f.digitalRead)]
    else [Event.readFirmata, Event.readReady]

/-- The method `update()`.  `none`: the call does not return. -/
def FirmataDevice.update (dev : FirmataDevice) :
    Option (OSVR_ReturnCode × FirmataDevice × List Event) :=
  if dev.m_thread_data.end_ then
    some (OSVR_ReturnCode.OSVR_RETURN_SUCCESS, dev, [Event.readEnd true])
  else
    match mainLock dev.m_thread_data with
    | none => none
    | some d =>
      some (OSVR_ReturnCode.OSVR_RETURN_SUCCESS,
            { dev with m_thread_data := mainUnlock d },
            [Event.readEnd false, Event.lock] ++ updateBody d ++ [Event.unlock])

/-- The destructor `~FirmataDevice()`.  `none`: the call does not return.  Once `end` is
written the worker leaves its loop at the next check (`runLoop_observes_end`), so
`join()` returns. -/
def FirmataDevice.destroy (dev : FirmataDevice) : Option (FirmataDevice × List Event) :=
  match mainLock dev.m_thread_data with
  | none => none
  | some d =>
    some ({ dev with m_thread_data := mainUnlock { d with end_ := true } },
          [Event.lock, Event.writeEnd true, Event.unlock, Event.join])

/-- The device as the main thread finds it after the worker has run on: the member
`m_thread_data` is the record the two threads share, so it is the record as the worker
has left it. -/
def FirmataDevice.later (dev : FirmataDevice) (w : Worker) : FirmataDevice :=
  { dev with m_thread_data := w.data }

/-! ## Hardware detection: `HardwareDetection::operator()` -/

/-- The type `firmata::PortInfo`, as far as the plugin reads it. -/
structure PortInfo where
  port : String
  deriving DecidableEq, Repr

/-- One entry of `FirmSerial::listPorts()` together with what is behind it during this
attempt: the environment of the worker and the progress the worker makes during the
constructor's sleep. -/
structure Probe where
  info : PortInfo
  env : Env
  grace : Nat

/-- The member `m_ports` and what the callback has done with the devices it made:
`registered` are those handed to `registerObjectForDeletion`, `deleted` those it
destroyed. -/
structure HardwareDetection where
  m_ports : List String
  registered : List FirmataDevice
  deleted : List FirmataDevice

/-- The constructor `HardwareDetection()`. -/
def HardwareDetection.init : HardwareDetection :=
  { m_ports := [], registered := [], deleted := [] }

/-- The inner loop of lines 181 to 187. -/
def isUsed (port : String) : List String → Bool
  | [] => false
  | used_port :: rest =>
    if std_string_compare used_port port == 0 then true else isUsed port rest

/-- How a call of the callback ends: it returns a code, or it is stuck inside a
constructor or destructor that does not return. -/
inductive ScanResult where
  | returned (code : OSVR_ReturnCode) (st : HardwareDetection)
  | blocked (st : HardwareDetection)

/-- The state a call leaves behind. -/
def ScanResult.state : ScanResult → HardwareDetection
  | ScanResult.returned _ st => st
  | ScanResult.blocked st => st

/-- The loop of lines 180 to 199 followed by the `return` of line 200. -/
def scanLoop : List Probe → HardwareDetection → ScanResult
  | [], st => ScanResult.returned OSVR_ReturnCode.OSVR_RETURN_SUCCESS st
  | p :: rest, st =>
    if isUsed p.info.port st.m_ports then scanLoop rest st
    else
      match FirmataDevice.new p.env p.grace p.info.port defaultFirmwareName with
      | none => ScanResult.blocked st
      | some (device, _) =>
        if device.isValid then
          scanLoop rest { st with registered := st.registered ++ [device],
                                  m_ports := st.m_ports ++ [p.info.port] }
        else
          match device.destroy with
          | none => ScanResult.blocked st
          | some (gone, _) => scanLoop rest { st with deleted := st.deleted ++ [gone] }

/-- The call `operator()(ctx)`; `ports` is what `listPorts()` returns. -/
def HardwareDetection.scan (st : HardwareDetection) (ports : List Probe) : ScanResult :=
  scanLoop ports st

/-! ## Notions used in the statements -/

/-- The ports of the controllers the callback has kept. -/
def controllerPorts (st : HardwareDetection) : List String :=
  st.registered.map (fun dev => dev.m_thread_data.port)

/-- Reference definition of what the callback does with one enumerated port, after the
specification: a port already in the claimed list is not attempted; otherwise a device
is constructed, and it is retained and its port recorded as claimed if and only if it
is valid, else it is destroyed and the claimed list stays as it is.  `none`: the
construction or the destruction does not return. -/
def scanStepSpec (st : HardwareDetection) (p : Probe) : Option HardwareDetection :=
  if p.info.port ∈ st.m_ports then some st
  else
    match FirmataDevice.new p.env p.grace p.info.port defaultFirmwareName with
    | none => none
    | some (device, _) =>
      if device.isValid = true then
        some { st with m_ports := st.m_ports ++ [p.info.port],
                       registered := st.registered ++ [device] }
      else
        match device.destroy with
        | none => none
        | some (gone, _) => some { st with deleted := st.deleted ++ [gone] }

/-- Reference definition of one call of the callback: the enumerated ports are processed
in order. -/
def scanSpec : List Probe → HardwareDetection → Option HardwareDetection
  | [], st => some st
  | p :: rest, st =>
    match scanStepSpec st p with
    | none => none
    | some st1 => scanSpec rest st1

/-- Whether a call of the callback returned. -/
def ScanResult.hasReturned : ScanResult → Bool
  | ScanResult.returned _ _ => true
  | ScanResult.blocked _ => false

/-- The events of one complete pass through the worker's loop: the flag was read as
`false`, `parse()` was called and returned. -/
def iteration : List Event :=
  [Event.lock, Event.readEnd false, Event.parse, Event.unlock]

/-- The events of `n` complete passes. -/
def iterations : Nat → List Event
  | 0 => []
  | n + 1 => iteration ++ iterations n

/-- The events of the pass in which the loop is left: none while it is still running, the
check that read `true`, or the check and the `parse()` that raised. -/
def lastPass : Exit → List Event
  | Exit.running => []
  | Exit.normal => [Event.lock, Event.readEnd true]
  | Exit.raised _ => [Event.lock, Event.readEnd false, Event.parse]

/-- The command an event sends, if it sends one. -/
def commandOf : Event → Option Command
  | Event.command c => some c
  | _ => none

/-- The configuration the specification asks for, written out: analog reporting for the
six channels, input mode for the fourteen pins, digital reporting for ports 0 and 1. -/
def expectedConfig (MODE_INPUT : Nat) : List Command :=
  [Command.reportAnalog 0 1, Command.reportAnalog 1 1, Command.reportAnalog 2 1,
   Command.reportAnalog 3 1, Command.reportAnalog 4 1, Command.reportAnalog 5 1,
   Command.pinMode 0 MODE_INPUT, Command.pinMode 1 MODE_INPUT, Command.pinMode 2 MODE_INPUT,
   Command.pinMode 3 MODE_INPUT, Command.pinMode 4 MODE_INPUT, Command.pinMode 5 MODE_INPUT,
   Command.pinMode 6 MODE_INPUT, Command.pinMode 7 MODE_INPUT, Command.pinMode 8 MODE_INPUT,
   Command.pinMode 9 MODE_INPUT, Command.pinMode 10 MODE_INPUT, Command.pinMode 11 MODE_INPUT,
   Command.pinMode 12 MODE_INPUT, Command.pinMode 13 MODE_INPUT,
   Command.reportDigital 0 1, Command.reportDigital 1 1]

/-- Events that hand values to the host. -/
def isPublication : Event → Bool
  | Event.analogSetValues _ => true
  | Event.buttonSetValues _ => true
  | _ => false

/-- What a thread has published, in order. -/
def published (t : List Event) : List Event :=
  t.filter isPublication

/-- Events that read or write the end flag, the decoder pointer, or a field of the
decoder. -/
def accessesRecord : Event → Bool
  | Event.newFirmata => true
  | Event.command _ => true
  | Event.readEnd _ => true
  | Event.writeEnd _ => true
  | Event.parse => true
  | Event.deleteFirmata => true
  | Event.readFirmata => true
  | Event.readReady => true
  | Event.readName => true
  | Event.readMajor => true
  | Event.readMinor => true
  | Event.analogRead _ => true
  | Event.digitalRead _ => true
  | _ => false

/-- The locking discipline on the events of one thread: every access to the record
happens while the thread holds the mutex.  `held` says whether it holds it at the
start. -/
def lockDiscipline : Bool → List Event → Bool
  | _, [] => true
  | _, Event.lock :: rest => lockDiscipline true rest
  | _, Event.unlock :: rest => lockDiscipline false rest
  | held, e :: rest => (!accessesRecord e || held) && lockDiscipline held rest

/-! ## Concrete environments -/

/-- A decoder that has received the expected identity, version 2.3, all pins at zero. -/
def stdDecoder : Decoder :=
  { name := "StandardFirmata.ino", major_version := 2, minor_version := 3, ready := true,
    analogRead := fun _ => 0, digitalRead := fun _ => 0 }

/-- A board that answers as StandardFirmata and never fails. -/
def goodEnv : Env :=
  { MODE_INPUT := 0, openSerial := fun _ => none, newFirmata := Except.ok stdDecoder,
    command := fun _ f => Except.ok f, endAt := fun _ => false,
    parse := fun _ f => Except.ok f }

/-- A port that cannot be opened: the `FirmSerial` constructor raises `IOException`. -/
def busyEnv : Env :=
  { goodEnv with openSerial := fun _ => some Exn.IOException }

/-- A board that is unplugged after two rounds of parsing: the third `parse()` raises
`IOException`. -/
def unpluggedEnv : Env :=
  { goodEnv with
    parse := fun k f => if k < 2 then Except.ok f else Except.error Exn.IOException }

/-- A board whose firmware reports another name. -/
def otherEnv : Env :=
  { goodEnv with newFirmata := Except.ok { stdDecoder with name := "OtherFirmware.ino" } }

/-- Two entries for the same port, both answering as StandardFirmata. -/
def twiceSamePort : List Probe :=
  [{ info := { port := "COM3" }, env := goodEnv, grace := 1 },
   { info := { port := "COM3" }, env := goodEnv, grace := 1 }]

/-- The enumeration names one port, and that port cannot be opened. -/
def busyPort : List Probe :=
  [{ info := { port := "COM1" }, env := busyEnv, grace := 3 }]

/-- A record holding a decoder that is ready and carries the expected name. -/
def readyRecord : thread_data :=
  { mutex := none, end_ := false, firmata := some stdDecoder, port := "COM3" }

/-- The main thread sets `end` while the worker is in its third pass: the worker reads
`false` twice and `true` at its third check. -/
def stoppedEnv : Env :=
  { goodEnv with endAt := fun k => decide (2 ≤ k) }

/-- A board on which the fourth `pinMode` command raises `NotOpenException`. -/
def configFailEnv : Env :=
  { goodEnv with
    command := fun c f =>
      if c = Command.pinMode 3 0 then Except.error Exn.NotOpenException else Except.ok f }

/-! ## Strings and the claimed list -/

theorem char_eq_of_toNat_eq {a b : Char} (h : a.toNat = b.toNat) : a = b := by
  apply Char.eq_of_val_eq
  apply UInt32.eq_of_val_eq
  apply Fin.eq_of_val_eq
  exact h

theorem compareChars_eq_zero (a b : List Char) : compareChars a b = 0 ↔ a = b := by
  induction a generalizing b with
  | nil => cases b <;> simp [compareChars]
  | cons x xs ih =>
    cases b with
    | nil => simp [compareChars]
    | cons y ys =>
      simp only [compareChars]
      by_cases h1 : x.toNat < y.toNat
      · simp only [h1, if_true]
        constructor
        · intro h; omega
        · intro h
          have : x = y := (List.cons.inj h).1
          subst this
          omega
      · by_cases h2 : y.toNat < x.toNat
        · simp only [h1, h2, if_true, if_false]
          constructor
          · intro h; omega
          · intro h
            have : x = y := (List.cons.inj h).1
            subst this
            omega
        · have hxy : x = y := char_eq_of_toNat_eq (by omega)
          subst hxy
          simp only [h1, if_false, ih, List.cons.injEq, true_and]

/-- `a.compare(b) == 0` is equality of the two strings. -/
theorem std_string_compare_eq_zero (a b : String) : std_string_compare a b = 0 ↔ a = b := by
  unfold std_string_compare
  rw [compareChars_eq_zero, String.ext_iff]

/-- The inner loop of the callback finds the port exactly when it is in the list. -/
theorem isUsed_iff (port : String) (l : List String) : isUsed port l = true ↔ port ∈ l := by
  induction l with
  | nil => simp [isUsed]
  | cons u rest ih =>
    simp only [isUsed, List.mem_cons]
    by_cases h : std_string_compare u port = 0
    · have e : u = port := (std_string_compare_eq_zero u port).1 h
      subst e
      simp [h]
    · have hne : ¬ u = port := fun e => h ((std_string_compare_eq_zero u port).2 e)
      have hne2 : ¬ port = u := fun e => hne e.symm
      simp [h, hne2, ih]

/-! ## The worker keeps `data.port` -/

theorem sendAll_port (env : Env) (cs : List Command) (f : Decoder) (d : thread_data) :
    (sendAll env cs f d).1.data.port = d.port := by
  induction cs generalizing f d with
  | nil => rfl
  | cons c cs ih =>
    simp only [sendAll]
    cases env.command c f with
    | error e => rfl
    | ok f1 => simpa [Flow.after] using ih f1 { d with firmata := some f1 }

theorem runLoop_port (env : Env) (fuel k : Nat) (f : Decoder) (d : thread_data) :
    (runLoop env fuel k f d).data.port = d.port := by
  induction fuel generalizing k f d with
  | zero => rfl
  | succ n ih =>
    simp only [runLoop]
    split
    · rfl
    · cases env.parse k f with
      | error e => rfl
      | ok f1 => simp [Flow.after, ih, workerUnlock, workerLock]

theorem tryBlock_port (env : Env) (fuel : Nat) (d : thread_data) :
    (tryBlock env fuel d).data.port = d.port := by
  unfold tryBlock
  simp only
  split
  · rfl
  · split
    · rfl
    · split
      · split
        · simp [workerUnlock, runLoop_port, sendAll_port, workerLock]
        · simp [Flow.after, workerUnlock, runLoop_port, sendAll_port, workerLock]
      · simp [Flow.after, sendAll_port, workerLock]

theorem thread_function_port (env : Env) (fuel : Nat) (d : thread_data) :
    (thread_function env fuel d).data.port = d.port := by
  unfold thread_function
  simp only
  split <;> exact tryBlock_port env fuel d

theorem inspect_port {d : thread_data} {fw : String} {dev : FirmataDevice} {t : List Event}
    (h : FirmataDevice.inspect d fw = some (dev, t)) : dev.m_thread_data.port = d.port := by
  unfold FirmataDevice.inspect mainLock at h
  cases hm : d.mutex with
  | some o => simp [hm] at h
  | none =>
    simp only [hm] at h
    split at h
    · simp only [Option.some.injEq, Prod.mk.injEq] at h
      rw [← h.1]; rfl
    · simp only [Option.some.injEq, Prod.mk.injEq] at h
      rw [← h.1]; rfl

theorem new_port {env : Env} {grace : Nat} {port fw : String} {dev : FirmataDevice}
    {t : List Event} (h : FirmataDevice.new env grace port fw = some (dev, t)) :
    dev.m_thread_data.port = port := by
  unfold FirmataDevice.new at h
  rw [inspect_port h, thread_function_port]
  rfl

/-! ## Hardware detection -/

theorem scanLoop_nodup (ports : List Probe) (st : HardwareDetection)
    (h : st.m_ports.Nodup) : (scanLoop ports st).state.m_ports.Nodup := by
  induction ports generalizing st with
  | nil => exact h
  | cons p rest ih =>
    simp only [scanLoop]
    by_cases hu : isUsed p.info.port st.m_ports = true
    · simp only [hu, if_true]
      exact ih st h
    · simp only [hu]
      have hnot : p.info.port ∉ st.m_ports := fun hm => hu ((isUsed_iff _ _).2 hm)
      cases hnew : FirmataDevice.new p.env p.grace p.info.port defaultFirmwareName with
      | none => exact h
      | some r =>
        obtain ⟨device, t⟩ := r
        simp only
        by_cases hv : device.isValid = true
        · simp only [hv, if_true]
          apply ih
          simp only
          rw [List.nodup_append]
          refine ⟨h, List.nodup_singleton _, ?_⟩
          intro a ha hb
          rw [List.mem_singleton] at hb
          exact hnot (hb ▸ ha)
        · simp only [hv]
          cases hd : device.destroy with
          | none => exact h
          | some g =>
            obtain ⟨gone, t2⟩ := g
            exact ih _ h

theorem scanLoop_controllerPorts (ports : List Probe) (st : HardwareDetection)
    (h : controllerPorts st = st.m_ports) :
    controllerPorts (scanLoop ports st).state = (scanLoop ports st).state.m_ports := by
  induction ports generalizing st with
  | nil => exact h
  | cons p rest ih =>
    simp only [scanLoop]
    by_cases hu : isUsed p.info.port st.m_ports = true
    · simp only [hu, if_true]
      exact ih st h
    · simp only [hu]
      cases hnew : FirmataDevice.new p.env p.grace p.info.port defaultFirmwareName with
      | none => exact h
      | some r =>
        obtain ⟨device, t⟩ := r
        simp only
        by_cases hv : device.isValid = true
        · simp only [hv, if_true]
          apply ih
          simp only [controllerPorts, List.map_append, List.map_cons, List.map_nil]
          rw [new_port hnew]
          unfold controllerPorts at h
          rw [h]
        · simp only [hv]
          cases hd : device.destroy with
          | none => exact h
          | some g =>
            obtain ⟨gone, t2⟩ := g
            exact ih _ h

/-- C1. The callback keeps the claimed list free of duplicates: from a duplicate-free
`m_ports`, whatever `listPorts()` returns (the same port may be named more than once)
and however each constructed device turns out (valid, invalid, or never returning), the
list the call leaves behind has no duplicates.  The same holds after a second call, and
when the kept controllers are those of the claimed ports (as they are from the start) no
two kept controllers have the same port. -/
theorem scan_claimed_ports_nodup (st : HardwareDetection) (ports again : List Probe)
    (h : st.m_ports.Nodup) :
    (st.scan ports).state.m_ports.Nodup
      ∧ ((st.scan ports).state.scan again).state.m_ports.Nodup
      ∧ (controllerPorts st = st.m_ports →
          (controllerPorts ((st.scan ports).state.scan again).state).Nodup) := by
  have h1 : (st.scan ports).state.m_ports.Nodup := scanLoop_nodup ports st h
  have h2 : ((st.scan ports).state.scan again).state.m_ports.Nodup :=
    scanLoop_nodup again _ h1
  refine ⟨h1, h2, ?_⟩
  intro hc
  have c1 := scanLoop_controllerPorts ports st hc
  have c2 := scanLoop_controllerPorts again (scanLoop ports st).state c1
  unfold HardwareDetection.scan
  rw [c2]
  exact h2

theorem scan_claimed_ports_nodup_witness :
    (HardwareDetection.init.scan twiceSamePort).state.m_ports = ["COM3"]
      ∧ (HardwareDetection.init.scan twiceSamePort).state.m_ports.Nodup
      ∧ ((HardwareDetection.init.scan twiceSamePort).state.scan twiceSamePort).state.m_ports
          = ["COM3"]
      ∧ (controllerPorts
          ((HardwareDetection.init.scan twiceSamePort).state.scan twiceSamePort).state).Nodup :=
  ⟨by decide,
   (scan_claimed_ports_nodup HardwareDetection.init twiceSamePort twiceSamePort
      (by decide)).1,
   by decide,
   (scan_claimed_ports_nodup HardwareDetection.init twiceSamePort twiceSamePort
      (by decide)).2.2 rfl⟩

/-- The callback agrees with its reference definition: when the reference returns a state
the callback returns `OSVR_RETURN_SUCCESS` with that state, and when the reference is
stuck in a constructor or destructor so is the callback. -/
theorem scan_refines_reference (ports : List Probe) (st : HardwareDetection) :
    match scanSpec ports st with
    | some st1 => st.scan ports = ScanResult.returned OSVR_ReturnCode.OSVR_RETURN_SUCCESS st1
    | none => ∃ st1, st.scan ports = ScanResult.blocked st1 := by
  unfold HardwareDetection.scan
  induction ports generalizing st with
  | nil => simp [scanSpec, scanLoop]
  | cons p rest ih =>
    simp only [scanSpec, scanStepSpec, scanLoop]
    by_cases hu : isUsed p.info.port st.m_ports = true
    · have hm : p.info.port ∈ st.m_ports := (isUsed_iff _ _).1 hu
      simp only [hu, hm, if_true]
      exact ih st
    · have hm : p.info.port ∉ st.m_ports := fun hm => hu ((isUsed_iff _ _).2 hm)
      simp only [hu, hm, if_false]
      cases hnew : FirmataDevice.new p.env p.grace p.info.port defaultFirmwareName with
      | none => exact ⟨st, rfl⟩
      | some r =>
        obtain ⟨device, t⟩ := r
        simp only
        by_cases hv : device.isValid = true
        · simp only [hv, if_true]
          exact ih _
        · simp only [hv]
          cases hd : device.destroy with
          | none => exact ⟨st, rfl⟩
          | some g =>
            obtain ⟨gone, t2⟩ := g
            exact ih _

/-- Whenever the callback returns, the code is `OSVR_RETURN_SUCCESS`. -/
theorem scan_return_code (ports : List Probe) (st st1 : HardwareDetection)
    (code : OSVR_ReturnCode) (h : st.scan ports = ScanResult.returned code st1) :
    code = OSVR_ReturnCode.OSVR_RETURN_SUCCESS := by
  unfold HardwareDetection.scan at h
  induction ports generalizing st with
  | nil =>
    simp only [scanLoop, ScanResult.returned.injEq] at h
    exact h.1.symm
  | cons p rest ih =>
    simp only [scanLoop] at h
    split at h
    · exact ih st h
    · split at h
      · exact absurd h (by simp)
      · split at h
        · exact ih _ h
        · split at h
          · exact absurd h (by simp)
          · exact ih _ h

/-- C2, at the failing input.  `listPorts()` names one port whose `FirmSerial` constructor
raises `IOException`.  The worker returns from its handler still owning the mutex, the
constructor of `FirmataDevice` never gets past line 84, and the callback does not
return: no `OSVR_RETURN_SUCCESS`, nothing claimed, registered or deleted. -/
theorem scan_blocks_at_unopenable_port :
    (thread_function { busyEnv with endAt := fun _ => false } 3
        (thread_data.init "COM1")).data.mutex = some Thread.worker
      ∧ (FirmataDevice.new busyEnv 3 "COM1" defaultFirmwareName).isSome = false
      ∧ (HardwareDetection.init.scan busyPort).hasReturned = false
      ∧ (HardwareDetection.init.scan busyPort).state.m_ports = [] := by
  decide

/-! ## Validity -/

theorem validExpr_iff (d : thread_data) (firmwareName : String) :
    validExpr d firmwareName = true
      ↔ ∃ f, d.firmata = some f ∧ f.ready = true ∧ f.name = firmwareName := by
  unfold validExpr
  cases hf : d.firmata with
  | none => simp
  | some f =>
    simp only [Bool.and_eq_true, beq_iff_eq, std_string_compare_eq_zero, Option.some.injEq,
      exists_eq_left']

theorem update_isValid (dev : FirmataDevice)
    (r : OSVR_ReturnCode × FirmataDevice × List Event) (h : dev.update = some r) :
    r.2.1.isValid = dev.isValid := by
  unfold FirmataDevice.update at h
  split at h
  · simp only [Option.some.injEq] at h
    rw [← h]
  · split at h
    · exact absurd h (by simp)
    · simp only [Option.some.injEq] at h
      rw [← h]
      rfl

theorem destroy_isValid (dev : FirmataDevice) (r : FirmataDevice × List Event)
    (h : dev.destroy = some r) : r.1.isValid = dev.isValid := by
  unfold FirmataDevice.destroy at h
  split at h
  · exact absurd h (by simp)
  · simp only [Option.some.injEq] at h
    rw [← h]
    rfl

/-- C3. On every record the constructor gets to inspect once the sleep is over (its
`lock()` is granted), construction completes and `isValid()` is true exactly when the
decoder exists, reports `ready()`, and carries a name equal, as a string, to the
expected firmware name; the default expected name is "StandardFirmata.ino", so a
decoder named "OtherFirmware.ino" gives `isValid() == false`; a host device is
registered exactly for a valid one; and neither `update()` nor the destructor changes
what `isValid()` returns. -/
theorem isValid_iff_identity (d : thread_data) (firmwareName : String)
    (h : d.mutex = none) :
    ∃ dev t, FirmataDevice.inspect d firmwareName = some (dev, t)
      ∧ (dev.isValid = true
          ↔ ∃ f, d.firmata = some f ∧ f.ready = true ∧ f.name = firmwareName)
      ∧ (firmwareName = "StandardFirmata.ino" →
          ∀ f, d.firmata = some f → f.name = "OtherFirmware.ino" → dev.isValid = false)
      ∧ defaultFirmwareName = "StandardFirmata.ino"
      ∧ dev.m_dev.isSome = dev.isValid
      ∧ (∀ (later : FirmataDevice) r, later.update = some r →
          r.2.1.isValid = later.isValid)
      ∧ (∀ (later : FirmataDevice) r, later.destroy = some r →
          r.1.isValid = later.isValid) := by
  have hv : validExpr { d with mutex := some Thread.main } firmwareName
      = validExpr d firmwareName := rfl
  have hiff := validExpr_iff d firmwareName
  by_cases hval : validExpr d firmwareName = true
  · obtain ⟨f, hf, hr, hn⟩ := hiff.1 hval
    refine ⟨_, _, by simp only [FirmataDevice.inspect, mainLock, h, hv, hval, if_true]; rfl, ?_⟩
    refine ⟨?_, ?_, rfl, ?_, update_isValid, destroy_isValid⟩
    · simp only [FirmataDevice.isValid, hval, true_iff]
      exact ⟨f, hf, hr, hn⟩
    · intro hfw g hg hname
      rw [hf] at hg
      have : f = g := Option.some.inj hg
      subst this
      rw [hname, hfw] at hn
      exact absurd hn (by decide)
    · simp [FirmataDevice.isValid, hval, mainUnlock, hf]
  · have hval2 : validExpr d firmwareName = false := by
      cases hb : validExpr d firmwareName with
      | true => exact absurd hb hval
      | false => rfl
    refine ⟨_, _, by simp only [FirmataDevice.inspect, mainLock, h, hv, hval2]; rfl, ?_⟩
    refine ⟨?_, ?_, rfl, ?_, update_isValid, destroy_isValid⟩
    · simp only [FirmataDevice.isValid, hval2]
      constructor
      · intro hc; exact absurd hc (by simp)
      · intro hex; exact absurd (hiff.2 hex) hval
    · intro _ _ _ _
      simp only [FirmataDevice.isValid, hval2]
    · simp [FirmataDevice.isValid, hval2]

theorem isValid_iff_identity_witness :
    readyRecord.mutex = none
      ∧ ∃ dev t, FirmataDevice.inspect readyRecord defaultFirmwareName = some (dev, t)
          ∧ dev.isValid = true := by
  refine ⟨rfl, ?_⟩
  obtain ⟨dev, t, h1, h2, _⟩ := isValid_iff_identity readyRecord defaultFirmwareName rfl
  exact ⟨dev, t, h1, h2.2 ⟨stdDecoder, rfl, rfl, rfl⟩⟩

/-! ## The worker's loop -/

theorem runLoop_break (env : Env) (fuel k : Nat) (f : Decoder) (d : thread_data)
    (h : env.endAt k = true) :
    runLoop env (fuel + 1) k f d
      = { exit := Exit.normal, data := { workerLock d with end_ := true },
          events := [Event.lock, Event.readEnd true] } := by
  simp only [runLoop, h, if_true]

theorem runLoop_raise (env : Env) (fuel k : Nat) (f : Decoder) (d : thread_data) (e : Exn)
    (h : env.endAt k = false) (hp : env.parse k f = Except.error e) :
    runLoop env (fuel + 1) k f d
      = { exit := Exit.raised e, data := { workerLock d with end_ := false },
          events := [Event.lock, Event.readEnd false, Event.parse] } := by
  simp only [runLoop, h, hp, Bool.false_eq_true, if_false]

theorem runLoop_step (env : Env) (fuel k : Nat) (f f1 : Decoder) (d : thread_data)
    (h : env.endAt k = false) (hp : env.parse k f = Except.ok f1) :
    runLoop env (fuel + 1) k f d
      = (runLoop env fuel (k + 1) f1
          (workerUnlock { workerLock d with end_ := false, firmata := some f1 })).after
          iteration := by
  simp only [runLoop, h, hp, Bool.false_eq_true, if_false, iteration]

theorem runLoop_shape (env : Env) (fuel k : Nat) (f : Decoder) (d : thread_data) :
    ∃ n, n ≤ fuel
      ∧ (runLoop env fuel k f d).events
          = iterations n ++ lastPass (runLoop env fuel k f d).exit := by
  induction fuel generalizing k f d with
  | zero => exact ⟨0, Nat.le_refl 0, rfl⟩
  | succ m ih =>
    cases he : env.endAt k with
    | true =>
      rw [runLoop_break env m k f d he]
      exact ⟨0, Nat.zero_le _, rfl⟩
    | false =>
      cases hp : env.parse k f with
      | error e =>
        rw [runLoop_raise env m k f d e he hp]
        exact ⟨0, Nat.zero_le _, rfl⟩
      | ok f1 =>
        rw [runLoop_step env m k f f1 d he hp]
        obtain ⟨n, hn, hs⟩ := ih (k + 1) f1
          (workerUnlock { workerLock d with end_ := false, firmata := some f1 })
        refine ⟨n + 1, Nat.succ_le_succ hn, ?_⟩
        simp only [Flow.after, iterations]
        rw [hs, List.append_assoc]

theorem count_parse_iterations (n : Nat) :
    (iterations n).count Event.parse = n
      ∧ (iterations n).count (Event.readEnd false) = n := by
  induction n with
  | zero => exact ⟨rfl, rfl⟩
  | succ m ih =>
    simp only [iterations, iteration, List.count_append, ih.1, ih.2]
    constructor
    · have : List.count Event.parse
          [Event.lock, Event.readEnd false, Event.parse, Event.unlock] = 1 := by decide
      omega
    · have : List.count (Event.readEnd false)
          [Event.lock, Event.readEnd false, Event.parse, Event.unlock] = 1 := by decide
      omega

theorem count_parse_lastPass (x : Exit) :
    (lastPass x).count Event.parse = (lastPass x).count (Event.readEnd false) := by
  cases x <;> rfl

/-- Splitting a list at an occurrence of `x`: the occurrence is the head, or it lies in
the tail. -/
theorem cons_eq_append_cons {a x : Event} {l pre post : List Event}
    (h : a :: l = pre ++ x :: post) :
    (pre = [] ∧ a = x ∧ l = post) ∨ ∃ pre1, pre = a :: pre1 ∧ l = pre1 ++ x :: post := by
  cases pre with
  | nil =>
    simp only [List.nil_append, List.cons.injEq] at h
    exact Or.inl ⟨rfl, h.1, h.2⟩
  | cons b pre1 =>
    simp only [List.cons_append, List.cons.injEq] at h
    exact Or.inr ⟨pre1, by rw [h.1], h.2⟩

theorem readEnd_true_last (n : Nat) (x : Exit) (pre post : List Event)
    (h : iterations n ++ lastPass x = pre ++ Event.readEnd true :: post) :
    post = [] ∧ x = Exit.normal := by
  induction n generalizing pre with
  | zero =>
    cases x with
    | running =>
      simp only [iterations, lastPass, List.nil_append] at h
      cases pre <;> simp at h
    | normal =>
      simp only [iterations, lastPass, List.nil_append] at h
      rcases cons_eq_append_cons h with ⟨_, h1, _⟩ | ⟨p1, _, h2⟩
      · exact absurd h1 (by simp)
      · rcases cons_eq_append_cons h2 with ⟨_, _, h3⟩ | ⟨p2, _, h3⟩
        · exact ⟨h3.symm, rfl⟩
        · cases p2 <;> simp at h3
    | raised e =>
      simp only [iterations, lastPass, List.nil_append] at h
      rcases cons_eq_append_cons h with ⟨_, h1, _⟩ | ⟨p1, _, h2⟩
      · exact absurd h1 (by simp)
      · rcases cons_eq_append_cons h2 with ⟨_, h1, _⟩ | ⟨p2, _, h3⟩
        · exact absurd h1 (by simp)
        · rcases cons_eq_append_cons h3 with ⟨_, h1, _⟩ | ⟨p3, _, h4⟩
          · exact absurd h1 (by simp)
          · cases p3 <;> simp at h4
  | succ m ih =>
    simp only [iterations, iteration, List.cons_append, List.nil_append] at h
    rcases cons_eq_append_cons h with ⟨_, h1, _⟩ | ⟨p1, _, h2⟩
    · exact absurd h1 (by simp)
    · rcases cons_eq_append_cons h2 with ⟨_, h1, _⟩ | ⟨p2, _, h3⟩
      · exact absurd h1 (by simp)
      · rcases cons_eq_append_cons h3 with ⟨_, h1, _⟩ | ⟨p3, _, h4⟩
        · exact absurd h1 (by simp)
        · rcases cons_eq_append_cons h4 with ⟨_, h1, _⟩ | ⟨p4, _, h5⟩
          · exact absurd h1 (by simp)
          · exact ih p4 h5

theorem parse_after_check (n : Nat) (x : Exit) (pre post : List Event)
    (h : iterations n ++ lastPass x = pre ++ Event.parse :: post) :
    ∃ pre1, pre = pre1 ++ [Event.lock, Event.readEnd false] := by
  induction n generalizing pre with
  | zero =>
    cases x with
    | running =>
      simp only [iterations, lastPass, List.nil_append] at h
      cases pre <;> simp at h
    | normal =>
      simp only [iterations, lastPass, List.nil_append] at h
      rcases cons_eq_append_cons h with ⟨_, h1, _⟩ | ⟨p1, _, h2⟩
      · exact absurd h1 (by simp)
      · rcases cons_eq_append_cons h2 with ⟨_, h1, _⟩ | ⟨p2, _, h3⟩
        · exact absurd h1 (by simp)
        · cases p2 <;> simp at h3
    | raised e =>
      simp only [iterations, lastPass, List.nil_append] at h
      rcases cons_eq_append_cons h with ⟨_, h1, _⟩ | ⟨p1, e1, h2⟩
      · exact absurd h1 (by simp)
      · rcases cons_eq_append_cons h2 with ⟨_, h1, _⟩ | ⟨p2, e2, h3⟩
        · exact absurd h1 (by simp)
        · rcases cons_eq_append_cons h3 with ⟨e3, _, _⟩ | ⟨p3, _, h4⟩
          · exact ⟨[], by rw [e1, e2, e3]; rfl⟩
          · cases p3 <;> simp at h4
  | succ m ih =>
    simp only [iterations, iteration, List.cons_append, List.nil_append] at h
    rcases cons_eq_append_cons h with ⟨_, h1, _⟩ | ⟨p1, e1, h2⟩
    · exact absurd h1 (by simp)
    · rcases cons_eq_append_cons h2 with ⟨_, h1, _⟩ | ⟨p2, e2, h3⟩
      · exact absurd h1 (by simp)
      · rcases cons_eq_append_cons h3 with ⟨e3, _, _⟩ | ⟨p3, e3, h4⟩
        · exact ⟨[], by rw [e1, e2, e3]; rfl⟩
        · rcases cons_eq_append_cons h4 with ⟨_, h1, _⟩ | ⟨p4, e4, h5⟩
          · exact absurd h1 (by simp)
          · obtain ⟨q, hq⟩ := ih p4 h5
            exact ⟨Event.lock :: Event.readEnd false :: Event.parse :: Event.unlock :: q,
              by rw [e1, e2, e3, e4, hq]; rfl⟩

/-- Once the flag is read as `true` the loop is left at that very check. -/
theorem runLoop_observes_end (env : Env) (fuel k : Nat) (f : Decoder) (d : thread_data)
    (h : env.endAt k = true) :
    (runLoop env (fuel + 1) k f d).exit = Exit.normal
      ∧ (runLoop env (fuel + 1) k f d).events = [Event.lock, Event.readEnd true] := by
  rw [runLoop_break env fuel k f d h]
  exact ⟨rfl, rfl⟩

theorem runLoop_first_true (env : Env) (n : Nat) :
    ∀ (fuel k : Nat) (f : Decoder) (d : thread_data), n < fuel →
      (∀ j, j < n → env.endAt (k + j) = false ∧ ∀ g, ∃ g1, env.parse (k + j) g = Except.ok g1) →
      env.endAt (k + n) = true →
      (runLoop env fuel k f d).exit = Exit.normal
        ∧ (runLoop env fuel k f d).events = iterations n ++ [Event.lock, Event.readEnd true] := by
  induction n with
  | zero =>
    intro fuel k f d hlt _ htrue
    obtain ⟨m, rfl⟩ : ∃ m, fuel = m + 1 := ⟨fuel - 1, by omega⟩
    exact runLoop_observes_end env m k f d (by simpa using htrue)
  | succ m ih =>
    intro fuel k f d hlt hfalse htrue
    obtain ⟨fu, rfl⟩ : ∃ fu, fuel = fu + 1 := ⟨fuel - 1, by omega⟩
    have h0 := hfalse 0 (Nat.succ_pos m)
    simp only [Nat.add_zero] at h0
    obtain ⟨g1, hg1⟩ := h0.2 f
    have hrec := ih fu (k + 1) g1
      (workerUnlock { workerLock d with end_ := false, firmata := some g1 })
      (by omega)
      (fun j hj => by
        have := hfalse (j + 1) (by omega)
        rwa [show k + (j + 1) = k + 1 + j by omega] at this)
      (by rwa [show k + (m + 1) = k + 1 + m by omega] at htrue)
    rw [runLoop_step env fu k f g1 d h0.1 hg1]
    refine ⟨hrec.1, ?_⟩
    simp only [Flow.after, iterations]
    rw [hrec.2, List.append_assoc]

/-- C9. The loop of the worker reads the stop flag before every `parse()` and calls
`parse()` only after a read that gave `false`.  Its events are some number of complete
passes (lock, read `false`, `parse()`, unlock) followed by the pass in which it is left;
the number of `parse()` calls equals the number of reads that gave `false`; every
`parse()` comes directly after such a read; a read that gives `true` is the last event
of the loop, which is left there; if the first read gives `true` there is no `parse()`
call at all; and if the reads give `false` in the first `n` passes, whose `parse()`
calls return, and `true` in the next, the loop is left there after exactly `n` calls. -/
theorem runLoop_checks_end_before_parse (env : Env) (fuel : Nat) (f : Decoder)
    (d : thread_data) :
    (∃ n, n ≤ fuel
        ∧ (runLoop env fuel 0 f d).events
            = iterations n ++ lastPass (runLoop env fuel 0 f d).exit)
      ∧ (runLoop env fuel 0 f d).events.count Event.parse
          = (runLoop env fuel 0 f d).events.count (Event.readEnd false)
      ∧ (∀ pre post, (runLoop env fuel 0 f d).events = pre ++ Event.parse :: post →
          ∃ pre1, pre = pre1 ++ [Event.lock, Event.readEnd false])
      ∧ (∀ pre post, (runLoop env fuel 0 f d).events = pre ++ Event.readEnd true :: post →
          post = [] ∧ (runLoop env fuel 0 f d).exit = Exit.normal)
      ∧ (0 < fuel → env.endAt 0 = true →
          (runLoop env fuel 0 f d).exit = Exit.normal
            ∧ (runLoop env fuel 0 f d).events.count Event.parse = 0)
      ∧ (∀ n, n < fuel →
          (∀ j, j < n → env.endAt j = false ∧ ∀ g, ∃ g1, env.parse j g = Except.ok g1) →
          env.endAt n = true →
          (runLoop env fuel 0 f d).exit = Exit.normal
            ∧ (runLoop env fuel 0 f d).events.count Event.parse = n) := by
  obtain ⟨n, hn, hs⟩ := runLoop_shape env fuel 0 f d
  have hfirst : ∀ n, n < fuel →
      (∀ j, j < n → env.endAt j = false ∧ ∀ g, ∃ g1, env.parse j g = Except.ok g1) →
      env.endAt n = true →
      (runLoop env fuel 0 f d).exit = Exit.normal
        ∧ (runLoop env fuel 0 f d).events.count Event.parse = n := by
    intro m hm hfalse htrue
    have h := runLoop_first_true env m fuel 0 f d hm
      (fun j hj => by simpa using hfalse j hj) (by simpa using htrue)
    refine ⟨h.1, ?_⟩
    rw [h.2, List.count_append, (count_parse_iterations m).1]
    rfl
  refine ⟨⟨n, hn, hs⟩, ?_, ?_, ?_, ?_, hfirst⟩
  · rw [hs, List.count_append, List.count_append, (count_parse_iterations n).1,
      (count_parse_iterations n).2, count_parse_lastPass]
  · intro pre post h
    exact parse_after_check n _ pre post (hs ▸ h)
  · intro pre post h
    exact readEnd_true_last n _ pre post (hs ▸ h)
  · intro hpos h0
    exact hfirst 0 hpos (fun j hj => absurd hj (Nat.not_lt_zero j)) h0

theorem runLoop_checks_end_before_parse_witness :
    (runLoop stoppedEnv 5 0 stdDecoder (thread_data.init "COM3")).exit = Exit.normal
      ∧ (runLoop stoppedEnv 5 0 stdDecoder (thread_data.init "COM3")).events.count
          Event.parse = 2 :=
  (runLoop_checks_end_before_parse stoppedEnv 5 stdDecoder (thread_data.init "COM3")).2.2.2.2.2
    2 (by decide)
    (fun j hj => ⟨by
      have : j = 0 ∨ j = 1 := by omega
      rcases this with rfl | rfl <;> rfl, fun g => ⟨g, rfl⟩⟩)
    rfl

/-! ## Configuration -/

theorem configCommands_eq (m : Nat) : configCommands m = expectedConfig m := rfl

theorem sendAll_ok (env : Env) (hcmd : ∀ c f, ∃ f1, env.command c f = Except.ok f1)
    (cs : List Command) (f : Decoder) (d : thread_data) :
    (sendAll env cs f d).1.exit = Exit.normal
      ∧ (sendAll env cs f d).1.events = cs.map Event.command := by
  induction cs generalizing f d with
  | nil => exact ⟨rfl, rfl⟩
  | cons c cs ih =>
    obtain ⟨f1, hf1⟩ := hcmd c f
    have h := ih f1 { d with firmata := some f1 }
    simp only [sendAll, hf1, Flow.after, List.map_cons]
    exact ⟨h.1, by rw [h.2]; rfl⟩

theorem commandOf_iterations (n : Nat) : (iterations n).filterMap commandOf = [] := by
  induction n with
  | zero => rfl
  | succ m ih =>
    simp only [iterations, List.filterMap_append, ih, List.append_nil]
    rfl

theorem commandOf_lastPass (x : Exit) : (lastPass x).filterMap commandOf = [] := by
  cases x <;> rfl

theorem commandOf_runLoop (env : Env) (fuel k : Nat) (f : Decoder) (d : thread_data) :
    (runLoop env fuel k f d).events.filterMap commandOf = [] := by
  obtain ⟨n, _, hs⟩ := runLoop_shape env fuel k f d
  rw [hs, List.filterMap_append, commandOf_iterations, commandOf_lastPass]
  rfl

theorem commandOf_map_command (cs : List Command) :
    (cs.map Event.command).filterMap commandOf = cs := by
  induction cs with
  | nil => rfl
  | cons c cs ih => simp [List.filterMap_cons, commandOf, ih]

/-- With the port open, the decoder built and no command raising, the worker's trace is
the configuration block followed by the events of the loop and of the exit. -/
theorem thread_function_trace_configured (env : Env) (fuel : Nat) (data : thread_data)
    (hopen : env.openSerial data.port = none) (hnew : ∃ f0, env.newFirmata = Except.ok f0)
    (hcmd : ∀ c f, ∃ f1, env.command c f = Except.ok f1) :
    ∃ rest, (thread_function env fuel data).trace
        = [Event.lock, Event.openSerial data.port, Event.newFirmata]
            ++ (expectedConfig env.MODE_INPUT).map Event.command ++ [Event.unlock] ++ rest
      ∧ rest.filterMap commandOf = [] := by
  obtain ⟨f0, hf0⟩ := hnew
  have hport : (workerLock data).port = data.port := rfl
  unfold thread_function tryBlock
  simp only [hport, hopen, hf0]
  generalize hC : sendAll env (configCommands env.MODE_INPUT) f0 _ = C
  have hC1 : C.1.exit = Exit.normal := by
    rw [← hC]; exact (sendAll_ok env hcmd _ _ _).1
  have hC2 : C.1.events = (expectedConfig env.MODE_INPUT).map Event.command := by
    rw [← hC, ← configCommands_eq]; exact (sendAll_ok env hcmd _ _ _).2
  simp only [hC1, hC2]
  generalize hL : runLoop env fuel 0 _ _ = L
  have hLc : L.events.filterMap commandOf = [] := by
    rw [← hL]; exact commandOf_runLoop _ _ _ _ _
  cases hx : L.exit with
  | running =>
    refine ⟨L.events, ?_, hLc⟩
    simp [Flow.after, hx]
  | normal =>
    refine ⟨L.events ++ [Event.unlock, Event.deleteFirmata], ?_, ?_⟩
    · simp [hx]
    · rw [List.filterMap_append, hLc]; rfl
  | raised e =>
    refine ⟨L.events ++ [Event.log e], ?_, ?_⟩
    · simp [Flow.after, hx]
    · rw [List.filterMap_append, hLc]; rfl

theorem expectedConfig_nodup (m : Nat) : (expectedConfig m).Nodup := by
  simp [expectedConfig]

theorem filterMap_config_block (port : String) (cs : List Command) :
    ([Event.lock, Event.openSerial port, Event.newFirmata]
        ++ cs.map Event.command ++ [Event.unlock]).filterMap commandOf = cs := by
  rw [List.filterMap_append, List.filterMap_append, commandOf_map_command]
  simp [commandOf]

theorem parse_not_mem_config_block (port : String) (cs : List Command) :
    Event.parse ∉ [Event.lock, Event.openSerial port, Event.newFirmata]
        ++ cs.map Event.command ++ [Event.unlock] := by
  simp

/-- C8. In a run of the worker in which no call before the loop raises (the port opens,
the decoder is built, no command raises), the commands sent to the decoder are exactly
`reportAnalog(i, 1)` for `i = 0..5`, `pinMode(i, MODE_INPUT)` for `i = 0..13`,
`reportDigital(0, 1)` and `reportDigital(1, 1)`, in this order: 22 commands, each sent once.  They all come before
any `parse()` call, and no command follows one, however many passes of the loop are
observed. -/
theorem config_sent_once (env : Env) (fuel : Nat) (data : thread_data)
    (hopen : env.openSerial data.port = none) (hnew : ∃ f0, env.newFirmata = Except.ok f0)
    (hcmd : ∀ c f, ∃ f1, env.command c f = Except.ok f1) :
    (thread_function env fuel data).trace.filterMap commandOf = expectedConfig env.MODE_INPUT
      ∧ (expectedConfig env.MODE_INPUT).length = 22
      ∧ (∀ c, c ∈ expectedConfig env.MODE_INPUT →
          ((thread_function env fuel data).trace.filterMap commandOf).count c = 1)
      ∧ (∀ pre post, (thread_function env fuel data).trace = pre ++ Event.parse :: post →
          pre.filterMap commandOf = expectedConfig env.MODE_INPUT
            ∧ post.filterMap commandOf = [])
      ∧ (∃ rest, (thread_function env fuel data).trace
            = [Event.lock, Event.openSerial data.port, Event.newFirmata]
                ++ (expectedConfig env.MODE_INPUT).map Event.command ++ [Event.unlock] ++ rest
          ∧ rest.filterMap commandOf = []) := by
  obtain ⟨rest, ht, hrest⟩ := thread_function_trace_configured env fuel data hopen hnew hcmd
  have hall : (thread_function env fuel data).trace.filterMap commandOf
      = expectedConfig env.MODE_INPUT := by
    rw [ht, List.filterMap_append, filterMap_config_block, hrest, List.append_nil]
  refine ⟨hall, rfl, ?_, ?_, ⟨rest, ht, hrest⟩⟩
  · intro c hc
    rw [hall]
    exact List.count_eq_one_of_mem (expectedConfig_nodup _) hc
  · intro pre post hsplit
    rw [ht] at hsplit
    rcases List.append_eq_append_iff.1 hsplit with ⟨a, hpre, hr⟩ | ⟨c, hblock, hr⟩
    · have h2 : (a ++ Event.parse :: post).filterMap commandOf = [] := by rw [← hr]; exact hrest
      rw [List.filterMap_append, List.append_eq_nil] at h2
      constructor
      · rw [hpre, List.filterMap_append, filterMap_config_block, h2.1, List.append_nil]
      · have := h2.2
        simpa [List.filterMap_cons, commandOf] using this
    · cases c with
      | nil =>
        simp only [List.nil_append, List.append_nil] at hr hblock
        constructor
        · rw [← hblock, filterMap_config_block]
        · have h2 : (Event.parse :: post).filterMap commandOf = [] := by rw [hr]; exact hrest
          simpa [List.filterMap_cons, commandOf] using h2
      | cons x c1 =>
        simp only [List.cons_append, List.cons.injEq] at hr
        exfalso
        apply parse_not_mem_config_block data.port (expectedConfig env.MODE_INPUT)
        rw [hblock, hr.1]
        simp

theorem config_sent_once_witness :
    (thread_function goodEnv 3 (thread_data.init "COM3")).trace.filterMap commandOf
      = expectedConfig 0 :=
  (config_sent_once goodEnv 3 (thread_data.init "COM3") rfl ⟨stdDecoder, rfl⟩
    (fun _ f => ⟨f, rfl⟩)).1

/-! ## How the worker leaves `thread_function` -/

theorem sendAll_exit (env : Env) (cs : List Command) (f : Decoder) (d : thread_data) :
    (sendAll env cs f d).1.exit ≠ Exit.running
      ∧ (sendAll env cs f d).1.data.mutex = d.mutex
      ∧ Event.deleteFirmata ∉ (sendAll env cs f d).1.events := by
  induction cs generalizing f d with
  | nil => exact ⟨by simp [sendAll], rfl, by simp [sendAll]⟩
  | cons c cs ih =>
    simp only [sendAll]
    cases env.command c f with
    | error e => exact ⟨by simp, rfl, by simp⟩
    | ok f1 =>
      have h := ih f1 { d with firmata := some f1 }
      refine ⟨h.1, h.2.1, ?_⟩
      simp only [Flow.after, List.singleton_append, List.mem_cons, not_or]
      exact ⟨by simp, h.2.2⟩

theorem runLoop_mutex (env : Env) (fuel k : Nat) (f : Decoder) (d : thread_data)
    (hd : d.mutex = none) :
    match (runLoop env fuel k f d).exit with
    | Exit.running => (runLoop env fuel k f d).data.mutex = none
    | Exit.normal => (runLoop env fuel k f d).data.mutex = some Thread.worker
    | Exit.raised _ => (runLoop env fuel k f d).data.mutex = some Thread.worker := by
  induction fuel generalizing k f d with
  | zero => exact hd
  | succ m ih =>
    cases he : env.endAt k with
    | true => rw [runLoop_break env m k f d he]; rfl
    | false =>
      cases hp : env.parse k f with
      | error e => rw [runLoop_raise env m k f d e he hp]; rfl
      | ok f1 =>
        rw [runLoop_step env m k f f1 d he hp]
        exact ih (k + 1) f1 _ rfl

theorem deleteFirmata_not_mem_runLoop (env : Env) (fuel k : Nat) (f : Decoder)
    (d : thread_data) : Event.deleteFirmata ∉ (runLoop env fuel k f d).events := by
  induction fuel generalizing k f d with
  | zero => simp [runLoop]
  | succ m ih =>
    cases he : env.endAt k with
    | true => rw [runLoop_break env m k f d he]; simp
    | false =>
      cases hp : env.parse k f with
      | error e => rw [runLoop_raise env m k f d e he hp]; simp
      | ok f1 =>
        rw [runLoop_step env m k f f1 d he hp]
        simp only [Flow.after, iteration, List.mem_append, not_or]
        exact ⟨by simp, ih (k + 1) f1 _⟩

/-- The three ways out of `thread_function`.  Through a handler: the worker has returned,
it still owns the mutex, and it has not deleted the decoder.  After the flag was read
as `true`: it has returned, the mutex is free, and its last two events are the unlock
of line 64 and the `delete` of line 65.  Still in the loop when the window closes: it
is between two passes and the mutex is free. -/
theorem thread_function_exits (env : Env) (fuel : Nat) (d : thread_data) :
    match (tryBlock env fuel d).exit with
    | Exit.raised e =>
      (thread_function env fuel d).status = Status.returned
        ∧ (thread_function env fuel d).data.mutex = some Thread.worker
        ∧ Event.deleteFirmata ∉ (thread_function env fuel d).trace
        ∧ ∃ pre, (thread_function env fuel d).trace = pre ++ [Event.log e]
    | Exit.normal =>
      (thread_function env fuel d).status = Status.returned
        ∧ (thread_function env fuel d).data.mutex = none
        ∧ ∃ pre, (thread_function env fuel d).trace
            = pre ++ [Event.unlock, Event.deleteFirmata]
    | Exit.running =>
      (thread_function env fuel d).status = Status.running
        ∧ (thread_function env fuel d).data.mutex = none := by
  unfold thread_function tryBlock
  simp only
  cases ho : env.openSerial (workerLock d).port with
  | some e =>
    show _ ∧ _ ∧ _ ∧ _
    exact ⟨rfl, rfl, by simp, ⟨[Event.lock, Event.openSerial d.port], rfl⟩⟩
  | none =>
    cases hn : env.newFirmata with
    | error e =>
      show _ ∧ _ ∧ _ ∧ _
      exact ⟨rfl, rfl, by simp,
        ⟨[Event.lock, Event.openSerial d.port, Event.newFirmata], rfl⟩⟩
    | ok f0 =>
      simp only
      generalize hC : sendAll env (configCommands env.MODE_INPUT) f0 _ = C
      have hCx := sendAll_exit env (configCommands env.MODE_INPUT) f0
        { workerLock d with firmata := some f0 }
      rw [hC] at hCx
      cases hx : C.1.exit with
      | running => exact absurd hx hCx.1
      | raised e =>
        simp only [Flow.after, hx]
        refine ⟨trivial, ?_, ?_, ⟨_, rfl⟩⟩
        · rw [hCx.2.1]; rfl
        · have := hCx.2.2
          simp [this]
      | normal =>
        simp only
        generalize hL : runLoop env fuel 0 _ _ = L
        have hLm := runLoop_mutex env fuel 0 C.2 (workerUnlock C.1.data) rfl
        have hLd := deleteFirmata_not_mem_runLoop env fuel 0 C.2 (workerUnlock C.1.data)
        rw [hL] at hLm hLd
        cases hy : L.exit with
        | running =>
          rw [hy] at hLm
          simp only [Flow.after, hy]
          exact ⟨trivial, hLm⟩
        | normal =>
          simp only [hy]
          refine ⟨trivial, rfl, ⟨[Event.lock, Event.openSerial (workerLock d).port,
            Event.newFirmata] ++ C.1.events ++ [Event.unlock] ++ L.events, ?_⟩⟩
          simp
        | raised e =>
          rw [hy] at hLm
          simp only [Flow.after, hy]
          refine ⟨trivial, hLm, ?_, ⟨_, rfl⟩⟩
          have := hCx.2.2
          simp [this, hLd]

/-! ## The defect in the handlers -/

/-- C4, at the failing input.  The `FirmSerial` constructor raises `IOException`.  The
worker catches it, logs it and returns: it has locked the mutex at line 41 and never
unlocks it, and `firmata` is still `NULL`.  The constructor of `FirmataDevice` then
waits at line 84 for a mutex that is never released, whatever progress the worker was
given during the sleep: construction does not complete, `isValid()` is never
computed. -/
theorem construct_blocks_when_open_fails :
    (thread_function busyEnv 3 (thread_data.init "COM1")).status = Status.returned
      ∧ (thread_function busyEnv 3 (thread_data.init "COM1")).trace
          = [Event.lock, Event.openSerial "COM1", Event.log Exn.IOException]
      ∧ (thread_function busyEnv 3 (thread_data.init "COM1")).data.mutex = some Thread.worker
      ∧ (thread_function busyEnv 3 (thread_data.init "COM1")).data.firmata.isNone = true
      ∧ ∀ grace, (FirmataDevice.new busyEnv grace "COM1" defaultFirmwareName).isSome = false := by
  refine ⟨by decide, by decide, by decide, by decide, ?_⟩
  intro grace
  rfl

/-- C5, at the failing inputs.  When open raises, when a configuration command raises and
when `parse()` raises, the worker returns while it owns the mutex; only the exit after
reading `end == true` releases it.  For a device that was constructed as valid and
whose third `parse()` then raised, the destructor's `lock()` is never granted:
shutdown does not complete. -/
theorem shutdown_blocks_after_fault :
    ((thread_function busyEnv 3 (thread_data.init "COM1")).status = Status.returned
        ∧ (thread_function busyEnv 3 (thread_data.init "COM1")).data.mutex
            = some Thread.worker)
      ∧ ((thread_function configFailEnv 3 (thread_data.init "COM3")).status = Status.returned
        ∧ (thread_function configFailEnv 3 (thread_data.init "COM3")).data.mutex
            = some Thread.worker)
      ∧ ((thread_function unpluggedEnv 5 (thread_data.init "COM3")).status = Status.returned
        ∧ (thread_function unpluggedEnv 5 (thread_data.init "COM3")).data.mutex
            = some Thread.worker)
      ∧ ((thread_function stoppedEnv 5 (thread_data.init "COM3")).status = Status.returned
        ∧ (thread_function stoppedEnv 5 (thread_data.init "COM3")).data.mutex = none)
      ∧ (FirmataDevice.new unpluggedEnv 1 "COM3" defaultFirmwareName).map
          (fun p => (p.1.isValid,
            ((p.1.later (thread_function unpluggedEnv 5 (thread_data.init "COM3"))).destroy).isSome))
          = some (true, false) := by
  decide

/-- C10, at the failing input.  The third `parse()` raises `IOException`.  The fault is
caught and logged and the worker returns, but control has jumped over lines 64 and 65:
the trace has no `delete` of the decoder, and the decoder, with the transport it owns,
is still behind `data.firmata`.  On the exit after `end` was read as `true` the
`delete` is the last event. -/
theorem decoder_kept_when_parse_raises :
    (thread_function unpluggedEnv 5 (thread_data.init "COM3")).status = Status.returned
      ∧ (thread_function unpluggedEnv 5 (thread_data.init "COM3")).trace.getLast?
          = some (Event.log Exn.IOException)
      ∧ (thread_function unpluggedEnv 5 (thread_data.init "COM3")).trace.count
          Event.deleteFirmata = 0
      ∧ (thread_function unpluggedEnv 5 (thread_data.init "COM3")).data.firmata.isSome = true
      ∧ (thread_function stoppedEnv 5 (thread_data.init "COM3")).trace.getLast?
          = some Event.deleteFirmata := by
  decide

/-! ## `update()` -/

/-- What `update()` does when its `lock()` is granted: it returns `OSVR_RETURN_SUCCESS`
and leaves the device as it found it (the end flag, the decoder pointer, the mutex
free again); with `end` set it publishes nothing; otherwise, with a decoder that is
ready, it publishes the readings of "A0" to "A5" and then those of pins 0 to 13, as
the decoder holds them; with no decoder or one that is not ready it publishes
nothing. -/
theorem update_reports_cached (dev : FirmataDevice) (h : dev.m_thread_data.mutex = none) :
    ∃ t, dev.update = some (OSVR_ReturnCode.OSVR_RETURN_SUCCESS, dev, t)
      ∧ t.count Event.lock = t.count Event.unlock
      ∧ (dev.m_thread_data.end_ = true → published t = [])
      ∧ (dev.m_thread_data.end_ = false → ∀ f, dev.m_thread_data.firmata = some f →
          f.ready = true →
          published t
            = [Event.analogSetValues
                [f.analogRead "A0", f.analogRead "A1", f.analogRead "A2",
                 f.analogRead "A3", f.analogRead "A4", f.analogRead "A5"],
               Event.buttonSetValues
                [f.digitalRead 0, f.digitalRead 1, f.digitalRead 2, f.digitalRead 3,
                 f.digitalRead 4, f.digitalRead 5, f.digitalRead 6, f.digitalRead 7,
                 f.digitalRead 8, f.digitalRead 9, f.digitalRead 10, f.digitalRead 11,
                 f.digitalRead 12, f.digitalRead 13]])
      ∧ (dev.m_thread_data.firmata = none → published t = [])
      ∧ (∀ f, dev.m_thread_data.firmata = some f → f.ready = false → published t = []) := by
  obtain ⟨m_dev, ⟨mutex, end_, firmata, port⟩, m_valid⟩ := dev
  simp only at h
  subst h
  cases end_ with
  | true =>
    refine ⟨[Event.readEnd true], rfl, rfl, fun _ => rfl, fun hc => absurd hc (by simp), ?_, ?_⟩
    · intro _; rfl
    · intro _ _ _; rfl
  | false =>
    refine ⟨_, rfl, ?_, fun hc => absurd hc (by simp), ?_, ?_, ?_⟩
    · cases firmata with
      | none => rfl
      | some f =>
        cases hr : f.ready with
        | true => simp only [updateBody, mainLock, hr]; rfl
        | false => simp only [updateBody, mainLock, hr]; rfl
    · intro _ f hf hr
      simp only [Option.some.injEq] at hf
      subst hf
      simp only [updateBody, mainLock, hr]
      rfl
    · intro hf
      simp only at hf
      subst hf
      rfl
    · intro f hf hr
      simp only [Option.some.injEq] at hf
      subst hf
      simp only [updateBody, mainLock, hr]
      rfl

/-- C6, at the failing input.  A device is constructed as valid; later its third `parse()`
raises and the worker returns owning the mutex.  The flag `end` is still `false`, so
the next `update()` goes on to `lock()`, which is never granted: `update()` does not
return and publishes nothing. -/
theorem update_blocks_after_fault :
    (FirmataDevice.new unpluggedEnv 1 "COM3" defaultFirmwareName).map
        (fun p => (p.1.isValid,
          (p.1.later (thread_function unpluggedEnv 5 (thread_data.init "COM3"))).m_thread_data.end_,
          ((p.1.later (thread_function unpluggedEnv 5 (thread_data.init "COM3"))).update).isSome))
      = some (true, false, false) := by
  decide

/-! ## The locking discipline -/

/-- Whatever the device, `update()` starts by reading `end` without the mutex. -/
theorem update_reads_end_unlocked (dev : FirmataDevice)
    (r : OSVR_ReturnCode × FirmataDevice × List Event) (h : dev.update = some r) :
    lockDiscipline false r.2.2 = false := by
  unfold FirmataDevice.update at h
  split at h
  · simp only [Option.some.injEq] at h
    rw [← h]; rfl
  · split at h
    · exact absurd h (by simp)
    · simp only [Option.some.injEq] at h
      rw [← h]; rfl

/-- C7, at the failing inputs.  Three accesses happen without the mutex: `update()` reads
`end` at line 124 before it locks; the constructor, for a valid device, reads the
decoder's name and version at lines 89 to 91 after it has unlocked; the worker deletes
the decoder at line 65 after the unlock of line 64.  The destructor keeps the
discipline. -/
theorem accesses_outside_the_mutex :
    ((FirmataDevice.inspect readyRecord defaultFirmwareName).bind
        (fun p => p.1.update)).map (fun r => lockDiscipline false r.2.2) = some false
      ∧ (FirmataDevice.inspect readyRecord defaultFirmwareName).map
          (fun p => lockDiscipline false p.2) = some false
      ∧ lockDiscipline false (thread_function stoppedEnv 5 (thread_data.init "COM3")).trace
          = false
      ∧ ((FirmataDevice.inspect readyRecord defaultFirmwareName).bind
          (fun p => p.1.destroy)).map (fun r => lockDiscipline false r.2) = some true := by
  decide

end Firmata
